import Mathlib

/-!
Verification of the folder-size-analyzer scan engine (src/main.rs).

We shallowly embed the parts of the program the specification talks about:

* `calculate_dir_size` (main.rs lines 170-184): recursive subtree size
  accumulation over a model filesystem tree `FsNode`.  The model records the
  failure points the real code can hit: `errEntry` is a directory entry whose
  `entry?` read fails, `badFile` is a file whose `metadata()?` call fails, and
  `badDir` is a directory whose `read_dir` fails.
* the background scan task of `FolderScanner::scan` (lines 96-160): child
  enumeration, per-child progress updates under the progress mutex, the
  rayon `par_iter` size computation (order-preserving `collect`), the
  `filter_map(Result::ok)` drop of failed children, the stable
  `sort_by_key(Reverse(size))` (modelled with the stable `List.mergeSort`),
  and the final publication of results followed by clearing the scanning
  flag.  Because every shared-state access in the code happens under a
  mutex, the concurrent execution is modelled as a linearised event trace;
  the interleaving freedom of the rayon workers is the arbitrary
  permutation `order` of the children.
* the synchronous validation prefix of `FolderScanner::scan` (lines 64-68).
* a second filesystem model with symbolic links (`FsObj`), used to analyse
  how `calculate_dir_size` treats links: `Path::is_dir` and `fs::read_dir`
  resolve symlinks, while `DirEntry::file_type` and `DirEntry::metadata` do
  not.  Recursion is modelled with explicit fuel; an execution that exhausts
  every fuel bound corresponds to a non-terminating run of the real code.
-/

namespace FolderSizeAnalyzer

/-- Model of a filesystem subtree as enumerated by `calculate_dir_size`.
`file s` is a regular file of `s` bytes; `badFile` is a file whose
`metadata()` call fails; `badDir` is a directory whose `read_dir` fails;
`errEntry` is a directory entry whose `entry?` read fails; `dir es` is a
readable directory with entry list `es` in enumeration order. -/
inductive FsNode where
  | file (size : Nat)
  | badFile
  | badDir
  | errEntry
  | dir (entries : List FsNode)

mutual

/-- Embedding of `calculate_dir_size` (main.rs lines 170-184).
`fs::read_dir(path)?` fails unless the node is a readable directory; then the
entries are accumulated in order, with `?` propagating the first error. -/
def calculate_dir_size : FsNode → Except Unit Nat
  | .dir entries => sizeEntries entries
  | .file _ => .error ()
  | .badFile => .error ()
  | .badDir => .error ()
  | .errEntry => .error ()

/-- The `for entry in entries` loop of `calculate_dir_size`: each entry is
read (`entry?`), sized via `entrySize`, and added to the running total; the
`?` operator aborts the loop at the first error. -/
def sizeEntries : List FsNode → Except Unit Nat
  | [] => .ok 0
  | n :: rest =>
    match entrySize n with
    | .error e => .error e
    | .ok s =>
      match sizeEntries rest with
      | .error e => .error e
      | .ok t => .ok (s + t)

/-- Size of one directory entry in the loop body of `calculate_dir_size`:
`entry?` fails on `errEntry`; `path.is_dir()` is true for directories, which
are recursed into (`read_dir` inside the recursive call fails on `badDir`);
otherwise `entry.metadata()?.len()` is taken, failing on `badFile`. -/
def entrySize : FsNode → Except Unit Nat
  | .errEntry => .error ()
  | .dir es => sizeEntries es
  | .badDir => .error ()
  | .file s => .ok s
  | .badFile => .error ()

end

mutual

/-- True when the subtree contains none of the failure points
(`badFile`, `badDir`, `errEntry`). -/
def noErrors : FsNode → Bool
  | .file _ => true
  | .badFile => false
  | .badDir => false
  | .errEntry => false
  | .dir es => noErrorsList es

/-- `noErrors` on every node of a list. -/
def noErrorsList : List FsNode → Bool
  | [] => true
  | n :: rest => noErrors n && noErrorsList rest

end

mutual

/-- Mathematical total: sum of the byte lengths of all regular files in the
subtree. -/
def totalBytes : FsNode → Nat
  | .file s => s
  | .badFile => 0
  | .badDir => 0
  | .errEntry => 0
  | .dir es => totalBytesList es

/-- `totalBytes` summed over a list of nodes. -/
def totalBytesList : List FsNode → Nat
  | [] => 0
  | n :: rest => totalBytes n + totalBytesList rest

end

/-- One ranked result, `struct FolderInfo` (main.rs lines 26-30); the path is
modelled as a string name. -/
structure FolderInfo where
  path : String
  size : Nat
deriving DecidableEq

/-- An immediate child of the scan root: its path string and its subtree. -/
abbrev ChildDir := String × FsNode

/-- The path strings of the enumerated children. -/
def childNames (children : List ChildDir) : List String :=
  children.map Prod.fst

/-- The `sizes` / `successful` pipeline of the background task (main.rs lines
121-145): rayon's `par_iter().map(..).collect()` preserves input order, and
`filter_map(Result::ok)` keeps exactly the children whose
`calculate_dir_size` succeeded, in input enumeration order. -/
def okEntries (children : List ChildDir) : List FolderInfo :=
  children.filterMap fun c =>
    match calculate_dir_size c.2 with
    | .ok s => some ⟨c.1, s⟩
    | .error _ => none

/-- The comparison performed by `sort_by_key(|info| Reverse(info.size))`:
`a` may precede `b` exactly when `b.size ≤ a.size`. -/
def sizeDescLe (a b : FolderInfo) : Bool :=
  decide (b.size ≤ a.size)

/-- The published result list (main.rs lines 142-148): surviving children in
input order, sorted descending by size with Rust's stable `sort_by_key`
(modelled by the stable `List.mergeSort`). -/
def scanResults (children : List ChildDir) : List FolderInfo :=
  (okEntries children).mergeSort sizeDescLe

/-- The scan engine's result as a function of the requested display count:
`scan` binds `self.num_folders` to the unused `_num_folders` (main.rs line
72) and never passes it to the background task, so the engine ignores it. -/
def scanResultsWithMax (_numFolders : Nat) (children : List ChildDir) : List FolderInfo :=
  scanResults children

/-- The bars drawn by `show_size_chart` (main.rs lines 438-441): the
consumer truncates the result list with `.take(self.num_folders)`. -/
def chartBars (numFolders : Nat) (results : List FolderInfo) : List FolderInfo :=
  results.take numFolders

/-- `struct ScanProgress` (main.rs lines 32-37). -/
structure ScanProgress where
  current : Nat
  total : Nat
  current_path : String
deriving DecidableEq

/-- The shared state of one scan: the `results` vector, the `scanning` flag
(the pointee of `scanning_ptr`; `done` as observed by `update` is its
negation), the error surfaced to the caller (`self.error`, which the
background task never writes), and the progress triple. -/
structure ScanState where
  results : List FolderInfo
  scanning : Bool
  err : Option String
  progress : ScanProgress
deriving DecidableEq

/-- The atomic mutations the background task performs on the shared state,
each executed under the corresponding mutex. -/
inductive ScanEvent where
  | setTotal (n : Nat)
  | markStarted (path : String)
  | publishResults (rs : List FolderInfo)
  | setDone
deriving DecidableEq

/-- Effect of one event on the shared state: `setTotal` is `prog.total =
folders.len()` (lines 116-119); `markStarted` is `prog.current += 1;
prog.current_path = ..` at the start of a unit of work (lines 125-129);
`publishResults` is `*results_lock = successful` (lines 155-156); `setDone`
is `*scanning_clone.lock().unwrap() = false` (line 159). -/
def stepScan (s : ScanState) : ScanEvent → ScanState
  | .setTotal n =>
      { s with progress := { s.progress with total := n } }
  | .markStarted p =>
      { s with progress :=
          { current := s.progress.current + 1
            total := s.progress.total
            current_path := p } }
  | .publishResults rs => { s with results := rs }
  | .setDone => { s with scanning := false }

/-- Shared state at the moment the background task starts: `scan` has reset
the progress triple to zero, cleared `results`, cleared `self.error`, and
set the scanning flag (main.rs lines 62-94). -/
def initScanState : ScanState :=
  { results := []
    scanning := true
    err := none
    progress := { current := 0, total := 0, current_path := "" } }

/-- All states a reader can observe while a trace of events runs: the state
before each event and the state after the last. -/
def statesFrom (s : ScanState) : List ScanEvent → List ScanState
  | [] => [s]
  | e :: evs => s :: statesFrom (stepScan s e) evs

/-- Linearised event trace of a background run whose `read_dir` of the root
succeeded (main.rs lines 109-160): the total is set first, the per-unit
progress updates follow in some worker interleaving `order` (one per child),
and after the `par_iter` join the results are published and the scanning
flag is cleared. -/
def bgEventsOk (children : List ChildDir) (order : List String) : List ScanEvent :=
  .setTotal children.length ::
    (order.map .markStarted ++ [.publishResults (scanResults children), .setDone])

/-- Event trace of a background run whose `read_dir` of the root failed
(main.rs lines 98-107): the error string is discarded, the scanning flag is
cleared, and the task returns; nothing else is written. -/
def bgEventsEnumFail : List ScanEvent :=
  [.setDone]

/-- The observable states of a successful background run. -/
def scanStatesOk (children : List ChildDir) (order : List String) : List ScanState :=
  statesFrom initScanState (bgEventsOk children order)

/-- Outcome of the synchronous part of `FolderScanner::scan`: the returned
`Result` and whether a background task was spawned. -/
structure StartOutcome where
  result : Except String Unit
  spawned : Bool

/-- Embedding of the validation prefix of `FolderScanner::scan` (main.rs
lines 61-68 and 96): if `!path.exists() || !path.is_dir()` an error is
returned synchronously and `rayon::spawn` is never reached; otherwise the
task is spawned and `Ok(())` is returned. -/
def scanStart (pathExists pathIsDir : Bool) (input : String) : StartOutcome :=
  if !pathExists || !pathIsDir then
    { result := .error ("Invalid directory: " ++ input), spawned := false }
  else
    { result := .ok (), spawned := true }

/-- Filesystem object in the symlink-aware model: a regular file, a
directory whose entries are object identifiers, or a symbolic link to
another object. -/
inductive FsObj where
  | file (size : Nat)
  | dirObj (entries : List Nat)
  | symlink (target : Nat)

/-- A filesystem with symlinks: a map from object identifiers to objects. -/
abbrev Fsys := Nat → FsObj

/-- Resolution of a chain of symlinks, as the OS performs it for `is_dir`
and `read_dir`, with the usual bounded link-chain depth (`none` models
`ELOOP`). -/
def resolveLink (fs : Fsys) : Nat → Nat → Option Nat
  | 0, _ => none
  | fuel + 1, i =>
    match fs i with
    | .symlink t => resolveLink fs fuel t
    | _ => some i

/-- `Path::is_dir()`: follows symlinks and returns false on any error. -/
def isDirAt (fs : Fsys) (i : Nat) : Bool :=
  match resolveLink fs 40 i with
  | some j =>
    match fs j with
    | .dirObj _ => true
    | _ => false
  | none => false

/-- `fs::read_dir`: follows symlinks; succeeds exactly on a (resolved)
directory, returning its entry identifiers. -/
def readDirAt (fs : Fsys) (i : Nat) : Except Unit (List Nat) :=
  match resolveLink fs 40 i with
  | some j =>
    match fs j with
    | .dirObj es => .ok es
    | _ => .error ()
  | none => .error ()

/-- `DirEntry::metadata().len()`: does not traverse symlinks, so it reports
the object's own length (a symlink's own metadata length is modelled as 0;
this branch is only reached when `is_dir` was false). -/
def entryLen (fs : Fsys) (i : Nat) : Except Unit Nat :=
  match fs i with
  | .file s => .ok s
  | .symlink _ => .ok 0
  | .dirObj _ => .ok 0

/-- Fuelled embedding of `calculate_dir_size` over the symlink-aware model:
one unit of fuel is consumed per directory descent, and `none` means the
recursion did not complete within the given depth.  The loop body follows
main.rs lines 174-182: `path.is_dir()` (which follows symlinks) selects
recursion, otherwise the entry's own metadata length is added; the first
error aborts the accumulation. -/
def calcDirSizeF (fs : Fsys) : Nat → Nat → Option (Except Unit Nat)
  | 0, _ => none
  | fuel + 1, i =>
    match readDirAt fs i with
    | .error e => some (.error e)
    | .ok es =>
      es.foldl
        (fun acc c =>
          match acc with
          | none => none
          | some (.error e) => some (.error e)
          | some (.ok t) =>
            match (if isDirAt fs c then calcDirSizeF fs fuel c else some (entryLen fs c)) with
            | none => none
            | some (.error e) => some (.error e)
            | some (.ok s) => some (.ok (t + s)))
        (some (.ok 0))

/-- The run of `calculate_dir_size` at object `i` completes within no fuel
bound at all: the real recursion does not terminate. -/
def neverYields (fs : Fsys) (i : Nat) : Prop :=
  ∀ fuel, calcDirSizeF fs fuel i = none

/-- A filesystem with a circular symlink: directory 0 contains a symlink
back to directory 0. -/
def cycFs : Fsys := fun i =>
  match i with
  | 0 => .dirObj [1]
  | 1 => .symlink 0
  | _ => .file 0

/-- A filesystem where directory 0 contains a symlink to directory 2, which
contains a single 7-byte file. -/
def followFs : Fsys := fun i =>
  match i with
  | 0 => .dirObj [1]
  | 1 => .symlink 2
  | 2 => .dirObj [3]
  | _ => .file 7

/-- A filesystem where directory 0 contains a symlink to a 9-byte regular
file. -/
def leafLinkFs : Fsys := fun i =>
  match i with
  | 0 => .dirObj [1]
  | 1 => .symlink 2
  | _ => .file 9

/-- `DirEntry::file_type().is_dir()`, used by the top-level child filter of
`FolderScanner::scan` (main.rs line 111): it does not traverse symlinks, so
a symlink is never classified as a directory there. -/
def fileTypeIsDir : FsObj → Bool
  | .dirObj _ => true
  | .file _ => false
  | .symlink _ => false

/-! ### Helper lemmas -/

mutual

theorem entrySize_of_noErrors : (n : FsNode) → noErrors n = true →
    entrySize n = Except.ok (totalBytes n)
  | .file _, _ => rfl
  | .dir es, h => sizeEntries_of_noErrors es (by simpa [noErrors] using h)

theorem sizeEntries_of_noErrors : (es : List FsNode) → noErrorsList es = true →
    sizeEntries es = Except.ok (totalBytesList es)
  | [], _ => rfl
  | n :: rest, h => by
    have hn : noErrors n = true := by
      have := h
      simp [noErrorsList, Bool.and_eq_true] at this
      exact this.1
    have hr : noErrorsList rest = true := by
      have := h
      simp [noErrorsList, Bool.and_eq_true] at this
      exact this.2
    rw [sizeEntries, entrySize_of_noErrors n hn, sizeEntries_of_noErrors rest hr]
    rfl

end

theorem sizeEntries_first_error (pre : List FsNode) (n : FsNode) (post : List FsNode)
    (hpre : ∀ m ∈ pre, (entrySize m).isOk = true)
    (hn : entrySize n = Except.error ()) :
    sizeEntries (pre ++ n :: post) = Except.error () := by
  induction pre with
  | nil => simp [sizeEntries, hn]
  | cons m pre ih =>
    have hm : (entrySize m).isOk = true := hpre m (List.mem_cons_self m pre)
    obtain ⟨s, hs⟩ : ∃ s, entrySize m = Except.ok s := by
      cases h : entrySize m with
      | ok s => exact ⟨s, rfl⟩
      | error e => rw [h] at hm; simp [Except.isOk, Except.toBool] at hm
    have ih' := ih fun x hx => hpre x (List.mem_cons_of_mem m hx)
    simp only [List.cons_append, sizeEntries, hs]
    rw [List.append_eq, ih']

theorem sizeDescLe_trans (a b c : FolderInfo)
    (h₁ : sizeDescLe a b) (h₂ : sizeDescLe b c) : sizeDescLe a c := by
  simp only [sizeDescLe, decide_eq_true_eq] at h₁ h₂ ⊢
  omega

theorem sizeDescLe_total (a b : FolderInfo) : sizeDescLe a b || sizeDescLe b a := by
  simp only [sizeDescLe, Bool.or_eq_true, decide_eq_true_eq]
  omega

theorem cyc_none (fuel : Nat) :
    calcDirSizeF cycFs fuel 0 = none ∧ calcDirSizeF cycFs fuel 1 = none := by
  induction fuel with
  | zero => exact ⟨rfl, rfl⟩
  | succ f ih =>
    have h0 : calcDirSizeF cycFs (f + 1) 0 =
        (match calcDirSizeF cycFs f 1 with
          | none => none
          | some (.error e) => some (.error e)
          | some (.ok s) => some (.ok (0 + s))) := rfl
    have h1 : calcDirSizeF cycFs (f + 1) 1 =
        (match calcDirSizeF cycFs f 1 with
          | none => none
          | some (.error e) => some (.error e)
          | some (.ok s) => some (.ok (0 + s))) := rfl
    rw [h0, h1, ih.2]
    exact ⟨rfl, rfl⟩

theorem nodup_keys_eq_snd :
    ∀ (l : List ChildDir) (a : String) (b₁ b₂ : FsNode),
      (l.map Prod.fst).Nodup → (a, b₁) ∈ l → (a, b₂) ∈ l → b₁ = b₂ := by
  intro l
  induction l with
  | nil => intro a b₁ b₂ _ h; cases h
  | cons x l ih =>
    intro a b₁ b₂ hnd h₁ h₂
    rw [List.map_cons, List.nodup_cons] at hnd
    rcases List.mem_cons.mp h₁ with h₁ | h₁ <;>
      rcases List.mem_cons.mp h₂ with h₂ | h₂
    · rw [← h₂] at h₁
      exact congrArg Prod.snd h₁
    · exfalso
      apply hnd.1
      have hmem : a ∈ List.map Prod.fst l := by
        simpa using List.mem_map_of_mem Prod.fst h₂
      have hx : x.1 = a := by rw [← h₁]
      rw [hx]
      exact hmem
    · exfalso
      apply hnd.1
      have hmem : a ∈ List.map Prod.fst l := by
        simpa using List.mem_map_of_mem Prod.fst h₁
      have hx : x.1 = a := by rw [← h₂]
      rw [hx]
      exact hmem
    · exact ih a b₁ b₂ hnd.2 h₁ h₂

theorem filter_eq_size_sublist_mergeSort (l : List FolderInfo) (s : Nat) :
    (l.mergeSort sizeDescLe).filter (fun e => e.size == s) =
      l.filter (fun e => e.size == s) := by
  have hpw : (l.filter (fun e => e.size == s)).Pairwise
      (fun a b => sizeDescLe a b = true) := by
    apply List.pairwise_of_forall_mem_list
    intro a ha b hb
    have ha' := (List.mem_filter.mp ha).2
    have hb' := (List.mem_filter.mp hb).2
    simp only [beq_iff_eq] at ha' hb'
    simp [sizeDescLe, ha', hb']
  have hsub : List.Sublist (l.filter (fun e => e.size == s)) (l.mergeSort sizeDescLe) :=
    List.sublist_mergeSort sizeDescLe_trans sizeDescLe_total hpw (List.filter_sublist l)
  have hsub2 : List.Sublist (l.filter (fun e => e.size == s))
      ((l.mergeSort sizeDescLe).filter (fun e => e.size == s)) := by
    have h := List.Sublist.filter (fun e => e.size == s) hsub
    rwa [List.filter_eq_self.mpr (fun a ha => (List.mem_filter.mp ha).2)] at h
  have hlen : ((l.mergeSort sizeDescLe).filter (fun e => e.size == s)).length =
      (l.filter (fun e => e.size == s)).length :=
    ((List.mergeSort_perm l sizeDescLe).filter _).length_eq
  exact (List.Sublist.eq_of_length hsub2 hlen.symm).symm

theorem statesFrom_scanning_publish_done (rs : List FolderInfo) :
    ∀ (order : List String) (s : ScanState), s.scanning = true →
      ∀ t ∈ statesFrom s (order.map ScanEvent.markStarted ++
          [ScanEvent.publishResults rs, ScanEvent.setDone]),
        t.scanning = false → t.results = rs := by
  intro order
  induction order with
  | nil =>
    intro s hs t ht hf
    simp only [List.map_nil, List.nil_append, statesFrom] at ht
    rcases List.mem_cons.mp ht with h | h
    · subst h; rw [hs] at hf; cases hf
    rcases List.mem_cons.mp h with h | h
    · subst h
      rw [show (stepScan s (ScanEvent.publishResults rs)).scanning = s.scanning from rfl,
        hs] at hf
      cases hf
    · have : t = stepScan (stepScan s (ScanEvent.publishResults rs)) ScanEvent.setDone := by
        simpa using h
      subst this
      rfl
  | cons p order ih =>
    intro s hs t ht hf
    simp only [List.map_cons, List.cons_append, statesFrom] at ht
    rcases List.mem_cons.mp ht with h | h
    · subst h; rw [hs] at hf; cases hf
    · exact ih (stepScan s (ScanEvent.markStarted p))
        (by rw [show (stepScan s (ScanEvent.markStarted p)).scanning = s.scanning from rfl]
            exact hs)
        t h hf

theorem stepScan_current_le (s : ScanState) (e : ScanEvent) :
    s.progress.current ≤ (stepScan s e).progress.current := by
  cases e with
  | setTotal n => exact Nat.le_refl _
  | markStarted p => exact Nat.le_succ _
  | publishResults rs => exact Nat.le_refl _
  | setDone => exact Nat.le_refl _

theorem statesFrom_head (s : ScanState) (evs : List ScanEvent) :
    (statesFrom s evs).head? = some s := by
  cases evs <;> rfl

theorem statesFrom_current_chain (evs : List ScanEvent) :
    ∀ s : ScanState,
      ((statesFrom s evs).map (fun t => t.progress.current)).Chain' (· ≤ ·) := by
  induction evs with
  | nil => intro s; simp [statesFrom]
  | cons e evs ih =>
    intro s
    rw [statesFrom, List.map_cons, List.chain'_cons']
    refine ⟨?_, ih (stepScan s e)⟩
    intro y hy
    rw [List.head?_map, statesFrom_head] at hy
    have hy' : y = (stepScan s e).progress.current := by
      simpa using hy.symm
    rw [hy']
    exact stepScan_current_le s e

theorem statesFrom_bounded_total (rs : List FolderInfo) :
    ∀ (order : List String) (s : ScanState),
      s.progress.current + order.length ≤ s.progress.total →
      ∀ t ∈ statesFrom s (order.map ScanEvent.markStarted ++
          [ScanEvent.publishResults rs, ScanEvent.setDone]),
        t.progress.current ≤ t.progress.total ∧ t.progress.total = s.progress.total := by
  intro order
  induction order with
  | nil =>
    intro s hb t ht
    simp only [List.length_nil] at hb
    simp only [List.map_nil, List.nil_append, statesFrom] at ht
    rcases List.mem_cons.mp ht with h | h
    · subst h; exact ⟨by omega, rfl⟩
    rcases List.mem_cons.mp h with h | h
    · subst h
      refine ⟨?_, rfl⟩
      rw [show (stepScan s (ScanEvent.publishResults rs)).progress = s.progress from rfl]
      omega
    · have heq : t = stepScan (stepScan s (ScanEvent.publishResults rs)) ScanEvent.setDone := by
        simpa using h
      subst heq
      refine ⟨?_, rfl⟩
      rw [show (stepScan (stepScan s (ScanEvent.publishResults rs))
            ScanEvent.setDone).progress = s.progress from rfl]
      omega
  | cons p order ih =>
    intro s hb t ht
    simp only [List.length_cons] at hb
    simp only [List.map_cons, List.cons_append, statesFrom] at ht
    rcases List.mem_cons.mp ht with h | h
    · subst h; exact ⟨by omega, rfl⟩
    · have hb' : (stepScan s (ScanEvent.markStarted p)).progress.current + order.length ≤
          (stepScan s (ScanEvent.markStarted p)).progress.total := by
        rw [show (stepScan s (ScanEvent.markStarted p)).progress.current =
              s.progress.current + 1 from rfl,
          show (stepScan s (ScanEvent.markStarted p)).progress.total =
              s.progress.total from rfl]
        omega
      have hres := ih (stepScan s (ScanEvent.markStarted p)) hb' t h
      exact ⟨hres.1, hres.2⟩

/-! ### Claim theorems -/

/-- C1: the published entries are sorted descending by size (each entry is
at least as large as its successor), and entries of equal size keep the
input enumeration order of the children: filtering the published list down
to any fixed size value yields exactly the same list as filtering the
enumeration-ordered surviving children (`sort_by_key` is stable). -/
theorem scanResults_sorted_and_stable (children : List ChildDir) :
    (∀ i, (h : i + 1 < (scanResults children).length) →
      ((scanResults children).get ⟨i + 1, h⟩).size ≤
        ((scanResults children).get ⟨i, Nat.lt_of_succ_lt h⟩).size)
    ∧ ∀ s : Nat,
        (scanResults children).filter (fun e => e.size == s) =
          (okEntries children).filter (fun e => e.size == s) := by
  constructor
  · intro i h
    have hp : (scanResults children).Pairwise (fun a b => sizeDescLe a b = true) :=
      List.sorted_mergeSort sizeDescLe_trans sizeDescLe_total (okEntries children)
    have h' := List.pairwise_iff_getElem.mp hp i (i + 1)
      (Nat.lt_of_succ_lt h) h (Nat.lt_succ_self i)
    simp only [sizeDescLe, decide_eq_true_eq] at h'
    simpa [List.get_eq_getElem] using h'
  · intro s
    exact filter_eq_size_sublist_mergeSort (okEntries children) s

/-- C3: in every observable state of a successful background run, if the
scanning flag is already cleared (`done` as seen by `update`), the results
vector holds the complete sorted list: the trace publishes the full list
(after the `par_iter` join, hence after every dispatched unit of work has
returned) strictly before clearing the scanning flag, so no reader can see
`done` with partially populated entries. -/
theorem done_implies_results_published (children : List ChildDir) (order : List String)
    (_horder : order.Perm (childNames children)) :
    ∀ t ∈ scanStatesOk children order,
      t.scanning = false → t.results = scanResults children := by
  intro t ht hf
  rw [scanStatesOk, bgEventsOk, statesFrom] at ht
  rcases List.mem_cons.mp ht with h | h
  · subst h
    rw [show initScanState.scanning = true from rfl] at hf
    cases hf
  · exact statesFrom_scanning_publish_done (scanResults children) order
      (stepScan initScanState (ScanEvent.setTotal children.length)) rfl t h hf

theorem done_implies_results_published_witness :
    ["b", "a"].Perm (childNames [("a", FsNode.dir [FsNode.file 3]), ("b", FsNode.badDir)])
    ∧ ∀ t ∈ scanStatesOk [("a", FsNode.dir [FsNode.file 3]), ("b", FsNode.badDir)] ["b", "a"],
        t.scanning = false →
          t.results = scanResults [("a", FsNode.dir [FsNode.file 3]), ("b", FsNode.badDir)] :=
  ⟨List.Perm.swap "a" "b" [],
    done_implies_results_published
      [("a", FsNode.dir [FsNode.file 3]), ("b", FsNode.badDir)] ["b", "a"]
      (List.Perm.swap "a" "b" [])⟩

/-- C5: along every observable trace of a successful background run the
progress counter `current` is monotonically non-decreasing and never
exceeds `total`; `total` is zero in the initial state and equals the number
of enumerated children in every later state — it is set exactly once, by
the first event of the trace, and never changes afterwards. -/
theorem progress_monotone_and_bounded (children : List ChildDir) (order : List String)
    (horder : order.Perm (childNames children)) :
    ((scanStatesOk children order).map (fun t => t.progress.current)).Chain' (· ≤ ·)
    ∧ (∀ t ∈ scanStatesOk children order, t.progress.current ≤ t.progress.total)
    ∧ ∀ t ∈ (scanStatesOk children order).tail, t.progress.total = children.length := by
  have hlen : order.length = children.length := by
    have h := horder.length_eq
    simpa [childNames] using h
  have hb : (stepScan initScanState (ScanEvent.setTotal children.length)).progress.current +
      order.length ≤
      (stepScan initScanState (ScanEvent.setTotal children.length)).progress.total := by
    rw [show (stepScan initScanState (ScanEvent.setTotal children.length)).progress.current
          = 0 from rfl,
      show (stepScan initScanState (ScanEvent.setTotal children.length)).progress.total
          = children.length from rfl]
    omega
  refine ⟨statesFrom_current_chain _ _, ?_, ?_⟩
  · intro t ht
    rw [scanStatesOk, bgEventsOk, statesFrom] at ht
    rcases List.mem_cons.mp ht with h | h
    · subst h; exact Nat.le_refl 0
    · exact (statesFrom_bounded_total (scanResults children) order _ hb t h).1
  · intro t ht
    rw [scanStatesOk, bgEventsOk, statesFrom, List.tail_cons] at ht
    exact (statesFrom_bounded_total (scanResults children) order _ hb t ht).2

theorem progress_monotone_and_bounded_witness :
    ["b", "a"].Perm (childNames [("a", FsNode.dir [FsNode.file 3]), ("b", FsNode.badDir)])
    ∧ (((scanStatesOk [("a", FsNode.dir [FsNode.file 3]), ("b", FsNode.badDir)]
          ["b", "a"]).map (fun t => t.progress.current)).Chain' (· ≤ ·)
      ∧ (∀ t ∈ scanStatesOk [("a", FsNode.dir [FsNode.file 3]), ("b", FsNode.badDir)]
            ["b", "a"],
          t.progress.current ≤ t.progress.total)
      ∧ ∀ t ∈ (scanStatesOk [("a", FsNode.dir [FsNode.file 3]), ("b", FsNode.badDir)]
            ["b", "a"]).tail,
          t.progress.total =
            List.length [("a", FsNode.dir [FsNode.file 3]), ("b", FsNode.badDir)]) :=
  ⟨List.Perm.swap "a" "b" [],
    progress_monotone_and_bounded
      [("a", FsNode.dir [FsNode.file 3]), ("b", FsNode.badDir)] ["b", "a"]
      (List.Perm.swap "a" "b" [])⟩

/-- C4: the published list is exactly the surviving children: it is a
permutation of the `filter_map(Result::ok)` output, every child whose
accumulation succeeded appears with its size, and (with distinct child
names) a child whose accumulation failed contributes no entry; the scan
always publishes a list, so one child's failure never aborts it. -/
theorem scan_drops_failed_children (children : List ChildDir) :
    (scanResults children).Perm (okEntries children)
    ∧ (∀ name node s, (name, node) ∈ children →
        calculate_dir_size node = Except.ok s →
        FolderInfo.mk name s ∈ scanResults children)
    ∧ ∀ name node, (name, node) ∈ children →
        calculate_dir_size node = Except.error () →
        (childNames children).Nodup →
        ∀ e ∈ scanResults children, e.path ≠ name := by
  refine ⟨List.mergeSort_perm _ _, ?_, ?_⟩
  · intro name node s hmem hok
    have hm : FolderInfo.mk name s ∈ okEntries children :=
      List.mem_filterMap.mpr ⟨(name, node), hmem, by simp [hok]⟩
    rw [scanResults]
    exact List.mem_mergeSort.mpr hm
  · intro name node hmem herr hnodup e he
    intro hpath
    rw [scanResults] at he
    have he' : e ∈ okEntries children := List.mem_mergeSort.mp he
    obtain ⟨⟨nm, nd⟩, hmem', hf⟩ := List.mem_filterMap.mp he'
    cases hok : calculate_dir_size nd with
    | error u => rw [hok] at hf; simp at hf
    | ok s =>
      rw [hok] at hf
      simp only [Option.some.injEq] at hf
      have hnm : nm = name := by rw [← hpath, ← hf]
      rw [hnm] at hmem'
      have hnd : nd = node :=
        nodup_keys_eq_snd children name nd node (by rw [childNames] at hnodup; exact hnodup)
          hmem' hmem
      rw [hnd, herr] at hok
      cases hok

theorem scan_drops_failed_children_witness :
    ("a", FsNode.dir [FsNode.file 3]) ∈
        [("a", FsNode.dir [FsNode.file 3]), ("b", FsNode.badDir)]
    ∧ calculate_dir_size (FsNode.dir [FsNode.file 3]) = Except.ok 3
    ∧ FolderInfo.mk "a" 3 ∈
        scanResults [("a", FsNode.dir [FsNode.file 3]), ("b", FsNode.badDir)] :=
  ⟨List.mem_cons_self _ _, rfl,
    (scan_drops_failed_children
        [("a", FsNode.dir [FsNode.file 3]), ("b", FsNode.badDir)]).2.1
      "a" (FsNode.dir [FsNode.file 3]) 3 (List.mem_cons_self _ _) rfl⟩

/-- C2 counterexample: the claim predicts that a failing entry inside the
subtree is swallowed with a zero contribution, so `dir [badFile, file 5]`
would accumulate to `ok 5`; the code instead propagates the entry's
`metadata()?` failure and returns an error for the whole subtree. -/
theorem calc_inner_failure_surfaces :
    calculate_dir_size (FsNode.dir [FsNode.badFile, FsNode.file 5]) = Except.error ()
    ∧ (Except.error () : Except Unit Nat) ≠ Except.ok 5 :=
  ⟨rfl, by simp⟩

/-- C2 (amended): inside `calculate_dir_size` every `?` propagates, so a
read failure on any entry of the subtree aborts the accumulation at the
first failing entry and surfaces as an error for the whole subtree (the
scan layer then drops that child); a failure to open the top-level path is
likewise surfaced as an error. -/
theorem calc_aborts_at_first_failure (pre post : List FsNode) (n : FsNode)
    (hpre : ∀ m ∈ pre, (entrySize m).isOk = true)
    (hn : entrySize n = Except.error ()) :
    calculate_dir_size (FsNode.dir (pre ++ n :: post)) = Except.error ()
    ∧ calculate_dir_size FsNode.badDir = Except.error () :=
  ⟨by rw [calculate_dir_size]; exact sizeEntries_first_error pre n post hpre hn, rfl⟩

theorem calc_aborts_at_first_failure_witness :
    (∀ m ∈ [FsNode.file 3], (entrySize m).isOk = true)
    ∧ entrySize FsNode.badFile = Except.error ()
    ∧ (calculate_dir_size
        (FsNode.dir ([FsNode.file 3] ++ FsNode.badFile :: [FsNode.file 5])) = Except.error ()
      ∧ calculate_dir_size FsNode.badDir = Except.error ()) :=
  ⟨by intro m hm; simp at hm; subst hm; rfl, rfl,
    calc_aborts_at_first_failure [FsNode.file 3] [FsNode.file 5] FsNode.badFile
      (by intro m hm; simp at hm; subst hm; rfl) rfl⟩

/-- C6: `FolderScanner::scan` validates the input path synchronously: when
the path does not exist or is not a directory it returns the invalid
directory error and never reaches `rayon::spawn`; for a valid directory it
spawns the background task and returns without error. -/
theorem scanStart_validates (pathExists pathIsDir : Bool) (input : String) :
    (pathExists = false ∨ pathIsDir = false →
      scanStart pathExists pathIsDir input =
        { result := Except.error ("Invalid directory: " ++ input), spawned := false })
    ∧ (pathExists = true → pathIsDir = true →
      scanStart pathExists pathIsDir input = { result := Except.ok (), spawned := true }) := by
  cases pathExists <;> cases pathIsDir <;> simp [scanStart]

theorem scanStart_validates_witness :
    ((false = false ∨ true = false) ∧
      scanStart false true "gone" =
        { result := Except.error ("Invalid directory: " ++ "gone"), spawned := false })
    ∧ scanStart true true "ok" = { result := Except.ok (), spawned := true } :=
  ⟨⟨Or.inl rfl, (scanStart_validates false true "gone").1 (Or.inl rfl)⟩,
    (scanStart_validates true true "ok").2 rfl rfl⟩

/-- C7: on a subtree without read failures, `calculate_dir_size` lists the
entries, recurses into directories and adds regular file byte lengths,
returning the sum of the byte lengths of all regular files in the subtree. -/
theorem calculate_dir_size_eq_totalBytes (es : List FsNode)
    (h : noErrorsList es = true) :
    calculate_dir_size (FsNode.dir es) = Except.ok (totalBytes (FsNode.dir es)) := by
  rw [calculate_dir_size, totalBytes]
  exact sizeEntries_of_noErrors es h

theorem calculate_dir_size_eq_totalBytes_witness :
    noErrorsList [FsNode.file 1000] = true
    ∧ calculate_dir_size (FsNode.dir [FsNode.file 1000]) = Except.ok 1000 :=
  ⟨rfl, by
    have h := calculate_dir_size_eq_totalBytes [FsNode.file 1000] rfl
    simpa [totalBytes, totalBytesList] using h⟩

/-- C9: the scan engine ignores the requested display count entirely
(`let _num_folders` is never passed to the background task), publishing all
surviving children; truncation with `.take(num_folders)` happens only in
the chart-drawing consumer. -/
theorem engine_ignores_maxResults (numFolders : Nat) (children : List ChildDir)
    (rs : List FolderInfo) :
    scanResultsWithMax numFolders children = scanResults children
    ∧ (scanResultsWithMax numFolders children).Perm (okEntries children)
    ∧ chartBars numFolders rs = rs.take numFolders :=
  ⟨rfl, List.mergeSort_perm (okEntries children) sizeDescLe, rfl⟩

/-- C8: inside `calculate_dir_size` the branch test is `path.is_dir()`,
which resolves symlinks, and the recursive `read_dir` resolves them too, so
a symlink to a directory IS followed: the 7 bytes behind the link in
`followFs` are counted, and on the circular link of `cycFs` the recursion
completes within no depth bound at all (it runs forever on the real
machine).  Only a symlink to a non-directory is treated as a leaf with its
own metadata length, and only the top-level child filter
(`DirEntry::file_type`, main.rs line 111) refuses to classify a symlink as
a directory. -/
theorem calc_follows_symlinks_and_cycles :
    calcDirSizeF followFs 3 0 = some (Except.ok 7)
    ∧ calcDirSizeF leafLinkFs 3 0 = some (Except.ok 0)
    ∧ neverYields cycFs 0
    ∧ fileTypeIsDir (FsObj.symlink 0) = false :=
  ⟨rfl, rfl, fun fuel => (cyc_none fuel).1, rfl⟩

/-- C10: when the background task's `read_dir` of the root fails after
validation succeeded, it clears the scanning flag and returns: the scan
ends with an empty result set and the error string is discarded — no state
a reader can observe ever carries an error. -/
theorem enum_failure_silently_discarded :
    (List.foldl stepScan initScanState bgEventsEnumFail).scanning = false
    ∧ (List.foldl stepScan initScanState bgEventsEnumFail).results = []
    ∧ ∀ t ∈ statesFrom initScanState bgEventsEnumFail, t.err = none := by
  refine ⟨rfl, rfl, ?_⟩
  intro t ht
  simp only [bgEventsEnumFail, statesFrom, List.mem_cons, List.mem_singleton] at ht
  rcases ht with h | h | h
  · subst h; rfl
  · subst h; rfl
  · cases h

end FolderSizeAnalyzer
